import Mathlib

/-!
Shallow embedding of the QA detector core of src/app.py (translation QA for
Traditional Chinese).  Document text is modelled as `List Char`.  The regex
scans of the source are modelled as explicit left-to-right scanners with the
same leftmost, non-overlapping matching semantics: after a match of length L
starting at position i the scan resumes at position i + L, realised below by
a skip counter so that every scanner is structurally recursive on the text.
-/

/-- A CJK ideograph: the regex class covering U+4E00 to U+9FFF used by
`check_extra_spaces` and `check_typos`. -/
def isCJK (c : Char) : Bool := 0x4E00 ≤ c.toNat && c.toNat ≤ 0x9FFF

/-- A half-width horizontal space: the regex class of space and tab used in
the first pattern of `check_extra_spaces`. -/
def isHSpace (c : Char) : Bool := c == ' ' || c == '\t'

/-- The full-width space U+3000 matched by the second pattern of
`check_extra_spaces`. -/
def isFWSpace (c : Char) : Bool := c == Char.ofNat 0x3000

/-- The half-width ASCII punctuation class of `check_typos`:
comma, period, semicolon, colon, bang, question mark, parentheses, square
brackets, curly braces, double quote, apostrophe. -/
def asciiPunctChars : List Char :=
  [',', '.', ';', ':', '!', '?', ')', '(', '[', ']',
   Char.ofNat 123, Char.ofNat 125, Char.ofNat 34, Char.ofNat 39]

/-- Membership in the ASCII punctuation class. -/
def isAsciiPunct (c : Char) : Bool := asciiPunctChars.contains c

/-- The repeatable full-width CJK punctuation class of `check_typos`. -/
def repPunctChars : List Char := ['，', '。', '；', '：', '？', '！', '、']

/-- Membership in the repeatable CJK punctuation class. -/
def isRepPunct (c : Char) : Bool := repPunctChars.contains c

/-- The zero-width / BOM characters scanned by `check_typos`:
U+200B, U+200C, U+200D, U+FEFF, in the order of the source list. -/
def zwChars : List Char :=
  [Char.ofNat 0x200B, Char.ofNat 0x200C, Char.ofNat 0x200D, Char.ofNat 0xFEFF]

/-- The bracket/quote pair map `pairs` of `check_typos`: each opening
character is mapped to its matching closing character. -/
def pairsMap (c : Char) : Option Char :=
  if c == '（' then some '）'
  else if c == '《' then some '》'
  else if c == '「' then some '」'
  else if c == '『' then some '』'
  else if c == '【' then some '】'
  else if c == '(' then some ')'
  else if c == '[' then some ']'
  else if c == Char.ofNat 123 then some (Char.ofNat 125)
  else none

/-- Membership in the key set `opens` of the pair map. -/
def isOpenB (c : Char) : Bool := (pairsMap c).isSome

/-- The value set `closes` of the pair map, in source order. -/
def closersB : List Char :=
  ['）', '》', '」', '』', '】', ')', ']', Char.ofNat 125]

/-- Membership in the closer set `closes`. -/
def isCloseB (c : Char) : Bool := closersB.contains c

/-- Opening bracket of the three footnote notations of
`check_duplicate_footnotes`, mapped to the closing bracket required by the
same regex alternative. -/
def pairClose? (c : Char) : Option Char :=
  if c == '(' then some ')'
  else if c == '（' then some '）'
  else if c == '[' then some ']'
  else none

/-- A decimal digit as matched by the regex digit class in the footnote
patterns (the document domain only exercises ASCII digits). -/
def isDigitChar (c : Char) : Bool := 48 ≤ c.toNat && c.toNat ≤ 57

/-- The superscript digit table `supmap` of `check_duplicate_footnotes`. -/
def supVal? (c : Char) : Option Nat :=
  if c == '⁰' then some 0
  else if c == '¹' then some 1
  else if c == '²' then some 2
  else if c == '³' then some 3
  else if c == '⁴' then some 4
  else if c == '⁵' then some 5
  else if c == '⁶' then some 6
  else if c == '⁷' then some 7
  else if c == '⁸' then some 8
  else if c == '⁹' then some 9
  else none

/-- Membership in the superscript digit table. -/
def isSup (c : Char) : Bool := (supVal? c).isSome

/-- The ASCII digit character of value `n` (for `n` below 10). -/
def digitChar (n : Nat) : Char := Char.ofNat (48 + n)

/-- Fuel-driven core of the decimal rendering of a natural number. -/
def natDecimalAux : Nat → Nat → List Char
  | 0, _ => []
  | fuel + 1, n =>
    if n < 10 then [digitChar n]
    else natDecimalAux fuel (n / 10) ++ [digitChar (n % 10)]

/-- Decimal rendering of a natural number, as Python `str` renders a
non-negative int. -/
def natDecimal (n : Nat) : List Char := natDecimalAux (n + 1) n

/-- Decoding of a run of superscript digit characters, accumulating
`val = val * 10 + supmap[ch]` as in the source loop. -/
def decodeSup (run : List Char) : Nat :=
  run.foldl (fun a ch => a * 10 + ((supVal? ch).getD 0)) 0

/-- Replacement of a line break by a space, applied characterwise: the
`.replace` step of `context_snippet`. -/
def nlToSpace (c : Char) : Char := if c == '\n' then ' ' else c

/-- An issue tuple of `check_extra_spaces` / `check_duplicate_footnotes`:
start offset, span length, matched text (or footnote-number key). -/
abbrev Issue3 := Nat × Nat × List Char

/-- An issue tuple of `check_typos`: start offset, span length, matched
text, human-readable note. -/
abbrev Issue4 := Nat × Nat × List Char × String

/-- Embeds `context_snippet` of src/app.py: clamp the window to the text,
slice, and replace line breaks by spaces.  Natural-number subtraction
realises the `max(0, start - pad)` clamp. -/
def context_snippet (text : List Char) (start length : Nat) (pad : Nat := 32) :
    List Char :=
  let s := start - pad
  let e := min text.length (start + length + pad)
  ((text.drop s).take (e - s)).map nlToSpace

/-- Modelled from the spec wording for the aggregator snippet: the substring
of the line-break-normalised text from `max(0, start - 32)` to
`min(len(text), start + length + 32)`. -/
def context_snippet_spec (text : List Char) (start length : Nat) : List Char :=
  ((text.map nlToSpace).drop (start - 32)).take
    (min text.length (start + length + 32) - (start - 32))

/-- Left-to-right scanner for the two patterns of `check_extra_spaces`:
a CJK ideograph, one or more whitespace characters of kind `ws`, and a
closing CJK ideograph.  `i` is the current position, `sk` the number of
positions still to skip because they belong to the previous match. -/
def scanSpacesGo (ws : Char → Bool) : Nat → Nat → List Char → List Issue3
  | _, _, [] => []
  | i, sk + 1, _ :: rest => scanSpacesGo ws (i + 1) sk rest
  | i, 0, c :: rest =>
    if isCJK c then
      let k := (rest.takeWhile ws).length
      if 1 ≤ k then
        match (rest.drop k).head? with
        | some d =>
          if isCJK d then
            (i, k + 2, c :: (rest.take k ++ [d])) :: scanSpacesGo ws (i + 1) (k + 1) rest
          else scanSpacesGo ws (i + 1) 0 rest
        | none => scanSpacesGo ws (i + 1) 0 rest
      else scanSpacesGo ws (i + 1) 0 rest
    else scanSpacesGo ws (i + 1) 0 rest

/-- Embeds `check_extra_spaces` of src/app.py: the ordinary-space findings
followed by the full-width-space findings. -/
def check_extra_spaces (text : List Char) : List Issue3 :=
  scanSpacesGo isHSpace 0 0 text ++ scanSpacesGo isFWSpace 0 0 text

/-- Note attached to mixed-script punctuation issues in the source. -/
def asciiNote : String := "ASCII punctuation between CJK characters"

/-- Note attached to repeated-punctuation issues in the source. -/
def repNote : String := "Repeated punctuation"

/-- Note attached to unexpected-closer issues in the source. -/
def unexpNote : String := "Unexpected closing bracket/quote"

/-- Note attached to unclosed-opener issues in the source. -/
def unclosedNote : String := "Unclosed opening bracket/quote"

/-- Note attached to zero-width/BOM issues in the source. -/
def zwNote : String := "Zero-width/BOM character"

/-- Scanner for the mixed-script punctuation pattern of `check_typos`:
a CJK ideograph, an ASCII punctuation character, a CJK ideograph.  The
issue spans the punctuation character only; the scan resumes after the
whole three-character match. -/
def asciiGo : Nat → Nat → List Char → List Issue4
  | _, _, [] => []
  | i, sk + 1, _ :: rest => asciiGo (i + 1) sk rest
  | i, 0, a :: rest =>
    match rest.head?, (rest.drop 1).head? with
    | some b, some c =>
      if isCJK a && isAsciiPunct b && isCJK c then
        (i + 1, 1, [b], asciiNote) :: asciiGo (i + 1) 2 rest
      else asciiGo (i + 1) 0 rest
    | _, _ => []

/-- Scanner for the repeated-punctuation pattern of `check_typos`: a CJK
punctuation character followed by one or more further copies of itself.
The issue spans the whole run. -/
def repGo : Nat → Nat → List Char → List Issue4
  | _, _, [] => []
  | i, sk + 1, _ :: rest => repGo (i + 1) sk rest
  | i, 0, c :: rest =>
    if isRepPunct c then
      let k := (rest.takeWhile (fun x => x == c)).length
      if 1 ≤ k then
        (i, k + 1, c :: rest.take k, repNote) :: repGo (i + 1) k rest
      else repGo (i + 1) 0 rest
    else repGo (i + 1) 0 rest

/-- The bracket/quote balance scan of `check_typos`: push openers, pop on a
matching closer, emit an unexpected-close issue (without popping) when the
closer does not match the top of the stack or the stack is empty.  Returns
the issues in scan order and the final stack, topmost element first. -/
def bracketScan : Nat → List (Char × Nat) → List Char → List Issue4 × List (Char × Nat)
  | _, stack, [] => ([], stack)
  | i, stack, ch :: rest =>
    if isOpenB ch then bracketScan (i + 1) ((ch, i) :: stack) rest
    else if isCloseB ch then
      match stack with
      | [] =>
        let r := bracketScan (i + 1) [] rest
        ((i, 1, [ch], unexpNote) :: r.1, r.2)
      | top :: stack' =>
        if pairsMap top.1 == some ch then bracketScan (i + 1) stack' rest
        else
          let r := bracketScan (i + 1) (top :: stack') rest
          ((i, 1, [ch], unexpNote) :: r.1, r.2)
    else bracketScan (i + 1) stack rest

/-- All positions of the character `c` in the text, starting at index `i`:
the scan of one zero-width character in `check_typos`. -/
def occurrences (c : Char) : Nat → List Char → List Nat
  | _, [] => []
  | i, x :: rest =>
    if x == c then i :: occurrences c (i + 1) rest else occurrences c (i + 1) rest

/-- The zero-width / BOM issues of `check_typos`, grouped by character in
the order of the source list. -/
def zwIssues (text : List Char) : List Issue4 :=
  (zwChars.map (fun z => (occurrences z 0 text).map (fun i => (i, 1, [z], zwNote)))).flatten

/-- Embeds `check_typos` of src/app.py: mixed-script punctuation issues,
repeated-punctuation issues, bracket-balance issues (scan issues followed
by one issue per character left on the stack, in push order, at the
opener's recorded position), and zero-width-character issues. -/
def check_typos (text : List Char) : List Issue4 :=
  let bres := bracketScan 0 [] text
  asciiGo 0 0 text ++ repGo 0 0 text
    ++ (bres.1 ++ bres.2.reverse.map (fun cp => (cp.2, 1, [cp.1], unclosedNote)))
    ++ zwIssues text

/-- Lookup in the first-seen table of `check_duplicate_footnotes`
(`num in found`). -/
def keyMem (found : List (List Char × Nat)) (k : List Char) : Bool :=
  found.any (fun p => p.1 == k)

/-- The bracket-notation pass of `check_duplicate_footnotes`: an opening
bracket, one to three digits, and the matching closing bracket.  Threads
the first-seen table and emits an issue per already-seen number key. -/
def bracketDupGo : Nat → Nat → List (List Char × Nat) → List Char →
    List Issue3 × List (List Char × Nat)
  | _, _, found, [] => ([], found)
  | i, sk + 1, found, _ :: rest => bracketDupGo (i + 1) sk found rest
  | i, 0, found, c :: rest =>
    match pairClose? c with
    | some closer =>
      let ds := rest.takeWhile isDigitChar
      if 1 ≤ ds.length ∧ ds.length ≤ 3 then
        match (rest.drop ds.length).head? with
        | some c2 =>
          if c2 == closer then
            if keyMem found ds then
              let r := bracketDupGo (i + 1) (ds.length + 1) found rest
              ((i, ds.length + 2, ds) :: r.1, r.2)
            else bracketDupGo (i + 1) (ds.length + 1) ((ds, i) :: found) rest
          else bracketDupGo (i + 1) 0 found rest
        | none => bracketDupGo (i + 1) 0 found rest
      else bracketDupGo (i + 1) 0 found rest
    | none => bracketDupGo (i + 1) 0 found rest

/-- The superscript pass of `check_duplicate_footnotes`: a maximal run of
superscript digits, decoded to a base-10 value and keyed by its plain
decimal string, sharing the first-seen table with the bracket pass. -/
def supDupGo : Nat → Nat → List (List Char × Nat) → List Char →
    List Issue3 × List (List Char × Nat)
  | _, _, found, [] => ([], found)
  | i, sk + 1, found, _ :: rest => supDupGo (i + 1) sk found rest
  | i, 0, found, c :: rest =>
    if isSup c then
      let run := rest.takeWhile isSup
      let key := natDecimal (decodeSup (c :: run))
      if keyMem found key then
        let r := supDupGo (i + 1) run.length found rest
        ((i, run.length + 1, key) :: r.1, r.2)
      else supDupGo (i + 1) run.length ((key, i) :: found) rest
    else supDupGo (i + 1) 0 found rest

/-- Embeds `check_duplicate_footnotes` of src/app.py: the bracket-notation
pass runs first; the superscript pass then rescans the text reusing the
table produced by the first pass; the duplicate issues of the two passes
are concatenated in that order. -/
def check_duplicate_footnotes (text : List Char) : List Issue3 :=
  let p1 := bracketDupGo 0 0 [] text
  let p2 := supDupGo 0 0 p1.2 text
  p1.1 ++ p2.1

/-- The tokens found by the bracket-notation pass, without the first-seen
table: same scan as `bracketDupGo`, recording every extracted number. -/
def bracketTokens : Nat → Nat → List Char → List Issue3
  | _, _, [] => []
  | i, sk + 1, _ :: rest => bracketTokens (i + 1) sk rest
  | i, 0, c :: rest =>
    match pairClose? c with
    | some closer =>
      let ds := rest.takeWhile isDigitChar
      if 1 ≤ ds.length ∧ ds.length ≤ 3 then
        match (rest.drop ds.length).head? with
        | some c2 =>
          if c2 == closer then
            (i, ds.length + 2, ds) :: bracketTokens (i + 1) (ds.length + 1) rest
          else bracketTokens (i + 1) 0 rest
        | none => bracketTokens (i + 1) 0 rest
      else bracketTokens (i + 1) 0 rest
    | none => bracketTokens (i + 1) 0 rest

/-- The tokens found by the superscript pass, without the first-seen table. -/
def supTokens : Nat → Nat → List Char → List Issue3
  | _, _, [] => []
  | i, sk + 1, _ :: rest => supTokens (i + 1) sk rest
  | i, 0, c :: rest =>
    if isSup c then
      let run := rest.takeWhile isSup
      (i, run.length + 1, natDecimal (decodeSup (c :: run))) :: supTokens (i + 1) run.length rest
    else supTokens (i + 1) 0 rest

/-- First-seen filtering of a token sequence: keep a token when its key is
already in the table, record it otherwise.  Returns the kept tokens and
the final table. -/
def processToks (found : List (List Char × Nat)) :
    List Issue3 → List Issue3 × List (List Char × Nat)
  | [] => ([], found)
  | t :: ts =>
    if keyMem found t.2.2 then
      let r := processToks found ts
      (t :: r.1, r.2)
    else processToks ((t.2.2, t.1) :: found) ts

/-- Declarative duplicate selection over a token sequence: a token is kept
exactly when some earlier token of the sequence carries the same key, so
the first occurrence of a key is never kept. -/
def specGo (prev : List Issue3) : List Issue3 → List Issue3
  | [] => []
  | t :: ts =>
    if prev.any (fun p => p.2.2 == t.2.2) then t :: specGo (prev ++ [t]) ts
    else specGo (prev ++ [t]) ts

/-- Whitespace stripped by Python `str.strip` (the kinds that can occur in
this document domain). -/
def pyIsSpace (c : Char) : Bool :=
  c == ' ' || c == '\t' || c == '\n' || c == '\r' ||
    c == Char.ofNat 11 || c == Char.ofNat 12 || c == Char.ofNat 0x3000

/-- Python `str.strip`: drop whitespace from both ends. -/
def pyStrip (s : List Char) : List Char :=
  ((s.dropWhile pyIsSpace).reverse.dropWhile pyIsSpace).reverse

/-- Accumulator core of splitting on the pipe character. -/
def splitPipeGo (acc : List Char) : List Char → List (List Char)
  | [] => [acc.reverse]
  | c :: rest =>
    if c == '|' then acc.reverse :: splitPipeGo [] rest
    else splitPipeGo (c :: acc) rest

/-- Python `variants_str.split` on a pipe separator: the empty string
splits to one empty field. -/
def splitPipe (s : List Char) : List (List Char) := splitPipeGo [] s

/-- Skip-counter core of Python `str.count`: non-overlapping occurrences,
advancing past each match. -/
def pyCountGo (sub : List Char) : Nat → List Char → Nat
  | _, [] => 0
  | sk + 1, _ :: rest => pyCountGo sub sk rest
  | 0, h :: rest =>
    if sub.isPrefixOf (h :: rest) then 1 + pyCountGo sub (sub.length - 1) rest
    else pyCountGo sub 0 rest

/-- Python `target.count(term)`: the empty pattern counts `len + 1` times,
a non-empty pattern is counted by non-overlapping left-to-right matching. -/
def pyCount (sub t : List Char) : Nat :=
  if sub.isEmpty then t.length + 1 else pyCountGo sub 0 t

/-- Seen-set core of first-occurrence deduplication (dict-key semantics of
the `used` dictionary). -/
def dedupFirstGo (seen : List (List Char)) : List (List Char) → List (List Char)
  | [] => []
  | x :: xs =>
    if seen.contains x then dedupFirstGo seen xs
    else x :: dedupFirstGo (x :: seen) xs

/-- First-occurrence deduplication, preserving insertion order. -/
def dedupFirst (xs : List (List Char)) : List (List Char) := dedupFirstGo [] xs

/-- A normalized glossary row as produced by `load_glossary`: English term,
preferred zh-TW term, pipe-separated variant terms. -/
structure GlossEntry where
  en : List Char
  zh_pref : List Char
  zh_variants : List Char
deriving DecidableEq

/-- An inconsistency record appended by `check_terminology_inconsistency`:
the stripped preferred term and the rendered list of used terms with their
counts. -/
structure Finding where
  preferred : List Char
  found : List Char
deriving DecidableEq

/-- The variant list of a glossary row: strip, split on pipes, strip each
field, and keep the non-empty ones. -/
def parseVariants (raw : List Char) : List (List Char) :=
  ((splitPipe (pyStrip raw)).map pyStrip).filter (fun t => !t.isEmpty)

/-- The rendered `found` string of an inconsistency record:
`term (count)` fields joined by a comma and space. -/
def joinFound (used : List (List Char × Nat)) : List Char :=
  List.intercalate (", ".toList)
    (used.map (fun kv => kv.1 ++ " (".toList ++ natDecimal kv.2 ++ ")".toList))

/-- The per-row body of `check_terminology_inconsistency`: skip a row whose
stripped preferred term and variant list are both empty; otherwise count
each distinct non-empty candidate term in the target and report when more
than one distinct term occurs. -/
def entryFinding (target : List Char) (e : GlossEntry) : Option Finding :=
  let pref := pyStrip e.zh_pref
  let variants := parseVariants e.zh_variants
  if pref.isEmpty && variants.isEmpty then none
  else
    let terms := dedupFirst ((pref :: variants).filter (fun t => !t.isEmpty))
    let used := terms.map (fun t => (t, pyCount t target))
    let used_terms := used.filter (fun kv => decide (0 < kv.2))
    if used_terms.length > 1 then some ⟨pref, joinFound used_terms⟩ else none

/-- Embeds `check_terminology_inconsistency` of src/app.py: the empty
glossary yields no findings; otherwise the rows are processed in order. -/
def check_terminology_inconsistency (target : List Char)
    (glossary : List GlossEntry) : List Finding :=
  if glossary.isEmpty then [] else glossary.filterMap (entryFinding target)

/-- Comparison of two spacing issues by start offset, the order the spec
asserts for a detector's output. -/
def startLe (a b : Issue3) : Prop := a.1 ≤ b.1

instance : DecidableRel startLe := fun a b => Nat.decLe a.1 b.1

theorem drop_eq_cons_getElem {text : List Char} {i : Nat} {a : Char} {rest : List Char}
    (h : List.drop i text = a :: rest) : text[i]? = some a := by
  have h0 : (List.drop i text)[0]? = some a := by rw [h]; simp
  rwa [List.getElem?_drop, Nat.add_zero] at h0

theorem drop_eq_cons_tail {text : List Char} {i : Nat} {a : Char} {rest : List Char}
    (h : List.drop i text = a :: rest) : List.drop (i + 1) text = rest := by
  rw [← List.tail_drop, h]
  rfl

/-- C1 counterexample: on the input of one unclosed opener the single
unclosed-open issue of `check_typos` is at offset 0, the opener's own
position, while end-of-text would be offset 3. -/
theorem C1_counterexample :
    check_typos ("（測試".toList) = [(0, 1, ['（'], unclosedNote)] ∧
      ("（測試".toList).length = 3 ∧ (0 : Nat) ≠ 3 := by
  refine ⟨rfl, rfl, by decide⟩

/-- C3 counterexample: in the text with two commas each sandwiched between
CJK ideographs, only the first comma is flagged; the second comma at
offset 3 yields no issue because the scan resumed past its left ideograph. -/
theorem C3_counterexample :
    check_typos ("你,好,嗎".toList) = [(1, 1, [','], asciiNote)] ∧
      ¬ ((3, 1, [','], asciiNote) ∈ check_typos ("你,好,嗎".toList)) := by
  refine ⟨rfl, by decide⟩

/-- C4 counterexample: with a full-width-space match earlier in the text
than an ordinary-space match, `check_extra_spaces` returns the
ordinary-space issue first, so the sequence is not ordered by increasing
start offset. -/
theorem C4_counterexample :
    check_extra_spaces ['中', Char.ofNat 0x3000, '文', ' ', '字'] =
        [(2, 3, ['文', ' ', '字']), (0, 3, ['中', Char.ofNat 0x3000, '文'])] ∧
      ¬ List.Pairwise startLe
          (check_extra_spaces ['中', Char.ofNat 0x3000, '文', ' ', '字']) := by
  refine ⟨rfl, by decide⟩

/-- C5: the superscript pass decodes a maximal superscript run to a base-10
value keyed by its plain decimal string, sharing the first-seen table with
the bracket pass: the run of superscript zero then one keys as the string
made of the digit one; the text with superscript one, two, one yields
exactly one duplicate keyed by that string; and a superscript one after a
bracket-notation one is reported as a duplicate of it. -/
theorem C5_thm :
    natDecimal (decodeSup ("⁰¹".toList)) = ['1'] ∧
      check_duplicate_footnotes ("a¹ b² c¹".toList) = [(7, 1, ['1'])] ∧
      check_duplicate_footnotes ("⁰¹ (1)".toList) = [(0, 2, ['1'])] := by
  refine ⟨rfl, rfl, rfl⟩

/-- C10 counterexample: the full-width right square bracket is not in the
recognized closer set, so the input of a full-width opener followed by it
yields only the unclosed-open issue and no unexpected-close issue. -/
theorem C10_counterexample :
    check_typos ("（］".toList) = [(0, 1, ['（'], unclosedNote)] ∧
      isCloseB '］' = false ∧
      ¬ ((1, 1, ['］'], unexpNote) ∈ check_typos ("（］".toList)) := by
  refine ⟨rfl, rfl, by decide⟩

/-- C10 amended: a recognized closing character that does not match the top
of the stack emits an unexpected-close issue at the closer's offset without
popping, so a full-width opener followed by a half-width right square
bracket yields that issue plus one unclosed-open issue for the opener still
on the stack. -/
theorem C10_amended_thm :
    check_typos ("（]".toList) =
      [(1, 1, [']'], unexpNote), (0, 1, ['（'], unclosedNote)] := rfl
theorem scanSpacesGo_start_lb (ws : Char → Bool) (i sk : Nat) (l : List Char) :
    ∀ x ∈ scanSpacesGo ws i sk l, i ≤ x.1 := by
  induction i, sk, l using scanSpacesGo.induct ws with
  | case1 i sk => intro x hx; simp [scanSpacesGo] at hx
  | case2 i sk head rest ih =>
    intro x hx
    rw [scanSpacesGo] at hx
    exact Nat.le_of_succ_le (ih x hx)
  | case3 i c rest hc k hk d hd hcjk ih =>
    intro x hx
    rw [scanSpacesGo] at hx
    simp only [hc, hd, hcjk, if_pos hk, if_true] at hx
    rcases List.mem_cons.mp hx with rfl | hx
    · exact Nat.le_refl i
    · exact Nat.le_of_succ_le (ih x hx)
  | case4 i c rest hc k hk d hd hcjk ih =>
    intro x hx
    rw [scanSpacesGo] at hx
    simp only [hc, hd, hcjk, if_pos hk, if_true] at hx
    exact Nat.le_of_succ_le (ih x hx)
  | case5 i c rest hc k hk hd ih =>
    intro x hx
    rw [scanSpacesGo] at hx
    simp only [hc, hd, if_pos hk, if_true] at hx
    exact Nat.le_of_succ_le (ih x hx)
  | case6 i c rest hc k hk ih =>
    intro x hx
    rw [scanSpacesGo] at hx
    simp only [hc, if_neg hk, if_true] at hx
    exact Nat.le_of_succ_le (ih x hx)
  | case7 i c rest hc ih =>
    intro x hx
    rw [scanSpacesGo] at hx
    simp only [hc] at hx
    exact Nat.le_of_succ_le (ih x hx)
theorem scanSpacesGo_sorted (ws : Char → Bool) (i sk : Nat) (l : List Char) :
    List.Pairwise (fun a b => a.1 < b.1) (scanSpacesGo ws i sk l) := by
  induction i, sk, l using scanSpacesGo.induct ws with
  | case1 i sk => simp [scanSpacesGo]
  | case2 i sk head rest ih => rw [scanSpacesGo]; exact ih
  | case3 i c rest hc k hk d hd hcjk ih =>
    rw [scanSpacesGo]
    simp only [hc, hd, hcjk, if_pos hk, if_true]
    refine List.Pairwise.cons ?_ ih
    intro y hy
    exact Nat.lt_of_succ_le (scanSpacesGo_start_lb ws (i + 1) (k + 1) rest y hy)
  | case4 i c rest hc k hk d hd hcjk ih =>
    rw [scanSpacesGo]
    simp only [hc, hd, hcjk, if_pos hk, if_true]
    exact ih
  | case5 i c rest hc k hk hd ih =>
    rw [scanSpacesGo]
    simp only [hc, hd, if_pos hk, if_true]
    exact ih
  | case6 i c rest hc k hk ih =>
    rw [scanSpacesGo]
    simp only [hc, if_neg hk, if_true]
    exact ih
  | case7 i c rest hc ih =>
    rw [scanSpacesGo]
    simp only [hc]
    exact ih

theorem scanSpacesGo_eq_nil_of_noCJK (ws : Char → Bool) (i sk : Nat) (l : List Char)
    (h : ∀ c ∈ l, isCJK c = false) : scanSpacesGo ws i sk l = [] := by
  induction i, sk, l using scanSpacesGo.induct ws with
  | case1 i sk => rw [scanSpacesGo]
  | case2 i sk head rest ih =>
    rw [scanSpacesGo]
    exact ih (fun c hc => h c (List.mem_cons_of_mem _ hc))
  | case3 i c rest hc k hk d hd hcjk ih =>
    have := h c (List.mem_cons_self c rest)
    rw [this] at hc
    exact Bool.noConfusion hc
  | case4 i c rest hc k hk d hd hcjk ih =>
    have := h c (List.mem_cons_self c rest)
    rw [this] at hc
    exact Bool.noConfusion hc
  | case5 i c rest hc k hk hd ih =>
    have := h c (List.mem_cons_self c rest)
    rw [this] at hc
    exact Bool.noConfusion hc
  | case6 i c rest hc k hk ih =>
    have := h c (List.mem_cons_self c rest)
    rw [this] at hc
    exact Bool.noConfusion hc
  | case7 i c rest hc ih =>
    rw [scanSpacesGo]
    simp only [hc]
    exact ih (fun x hx => h x (List.mem_cons_of_mem _ hx))

theorem cjk_not_hspace {x : Char} (h : isCJK x = true) : isHSpace x = false := by
  simp only [isHSpace, Bool.or_eq_false_iff, beq_eq_false_iff_ne, ne_eq]
  constructor
  · rintro rfl; exact absurd h (by decide)
  · rintro rfl; exact absurd h (by decide)

theorem cjk_not_fw {x : Char} (h : isCJK x = true) : isFWSpace x = false := by
  simp only [isFWSpace, beq_eq_false_iff_ne, ne_eq]
  rintro rfl; exact absurd h (by decide)

theorem C9_thm (a b c : Char) (ha : isCJK a = true) (hb : isCJK b = true)
    (hc : isCJK c = true) :
    check_extra_spaces [a, ' ', b, ' ', c] = [(0, 3, [a, ' ', b])] := by
  have hbs := cjk_not_hspace hb
  have hcs := cjk_not_hspace hc
  have haf := cjk_not_fw ha
  have hbf := cjk_not_fw hb
  have hcf := cjk_not_fw hc
  have hsp : isHSpace ' ' = true := by decide
  have hspf : isFWSpace ' ' = false := by decide
  have hspc : isCJK ' ' = false := by decide
  unfold check_extra_spaces
  simp [scanSpacesGo, ha, hb, hc, hbs, hcs, haf, hbf, hcf, hsp, hspf, hspc,
    List.takeWhile]

/-- C4 amended: within each whitespace-category pass of
`check_extra_spaces` the issues are ordered by increasing start offset,
but the function returns the ordinary-space pass followed by the
full-width-space pass, so the combined sequence need not be globally
ordered. -/
theorem C4_amended_thm (text : List Char) :
    List.Pairwise startLe (scanSpacesGo isHSpace 0 0 text) ∧
      List.Pairwise startLe (scanSpacesGo isFWSpace 0 0 text) ∧
      check_extra_spaces text =
        scanSpacesGo isHSpace 0 0 text ++ scanSpacesGo isFWSpace 0 0 text := by
  refine ⟨?_, ?_, rfl⟩
  · exact (scanSpacesGo_sorted isHSpace 0 0 text).imp (fun h => Nat.le_of_lt h)
  · exact (scanSpacesGo_sorted isFWSpace 0 0 text).imp (fun h => Nat.le_of_lt h)

/-- C4 amendment witness at a concrete text. -/
theorem C4_amended_witness :
    List.Pairwise startLe
      (scanSpacesGo isHSpace 0 0 ['中', Char.ofNat 0x3000, '文', ' ', '字']) :=
  (C4_amended_thm ['中', Char.ofNat 0x3000, '文', ' ', '字']).1

/-- C7: the detectors are total over their domain: a text with no CJK
ideograph yields no extra-space issues, and the empty glossary yields no
terminology findings. -/
theorem C7_thm :
    (∀ text : List Char, (∀ c ∈ text, isCJK c = false) →
        check_extra_spaces text = []) ∧
      (∀ target : List Char, check_terminology_inconsistency target [] = []) := by
  constructor
  · intro text h
    unfold check_extra_spaces
    rw [scanSpacesGo_eq_nil_of_noCJK isHSpace 0 0 text h,
      scanSpacesGo_eq_nil_of_noCJK isFWSpace 0 0 text h]
    rfl
  · intro target
    rfl

/-- C7 witness at concrete inputs. -/
theorem C7_witness :
    check_extra_spaces ("ab c".toList) = [] ∧
      check_terminology_inconsistency ("x".toList) [] = [] :=
  ⟨C7_thm.1 ("ab c".toList) (by decide), C7_thm.2 ("x".toList)⟩

/-- C9: three CJK ideographs separated by single ordinary spaces yield
exactly one extra-space issue, spanning the first
ideograph-space-ideograph triple: the scan is non-overlapping and a match
consumes its right-hand boundary ideograph. -/
theorem C9_claim_thm (a b c : Char) (ha : isCJK a = true) (hb : isCJK b = true)
    (hc : isCJK c = true) :
    check_extra_spaces [a, ' ', b, ' ', c] = [(0, 3, [a, ' ', b])] :=
  C9_thm a b c ha hb hc

/-- C9 witness at concrete ideographs. -/
theorem C9_witness :
    check_extra_spaces ['中', ' ', '文', ' ', '字'] = [(0, 3, ['中', ' ', '文'])] :=
  C9_claim_thm '中' '文' '字' (by decide) (by decide) (by decide)
/-- C8: the aggregator snippet is exactly the clamped substring of the
original text with line breaks replaced by spaces: it equals the spec-side
slice of the normalised text; at start offset 0 the window clamps to a
prefix; when the window reaches past the end of the text it clamps to a
suffix; and the snippet never exceeds the text length, so the slice bounds
are always in range. -/
theorem C8_thm (text : List Char) (start length : Nat) :
    context_snippet text start length = context_snippet_spec text start length ∧
      (start = 0 → context_snippet text start length =
        (text.map nlToSpace).take (min text.length (start + length + 32))) ∧
      (text.length ≤ start + length + 32 → context_snippet text start length =
        (text.map nlToSpace).drop (start - 32)) ∧
      (context_snippet text start length).length ≤ text.length := by
  have h1 : context_snippet text start length = context_snippet_spec text start length := by
    simp [context_snippet, context_snippet_spec, List.map_take, List.map_drop]
  refine ⟨h1, ?_, ?_, ?_⟩
  · intro h
    subst h
    simp [context_snippet, List.map_take, List.map_drop]
  · intro h
    rw [h1]
    unfold context_snippet_spec
    rw [Nat.min_eq_left h]
    exact List.take_of_length_le (by simp)
  · simp only [context_snippet, List.length_map, List.length_take, List.length_drop]
    omega

/-- C8 witness at a concrete text with an issue at offset 0 reaching past
the end of the text. -/
theorem C8_witness :
    context_snippet ("a\nbc".toList) 0 2 = context_snippet_spec ("a\nbc".toList) 0 2 ∧
      context_snippet ("a\nbc".toList) 0 2 =
        (("a\nbc".toList).map nlToSpace).take (min ("a\nbc".toList).length (0 + 2 + 32)) ∧
      context_snippet ("a\nbc".toList) 0 2 =
        (("a\nbc".toList).map nlToSpace).drop (0 - 32) :=
  ⟨(C8_thm ("a\nbc".toList) 0 2).1, (C8_thm ("a\nbc".toList) 0 2).2.1 rfl,
    (C8_thm ("a\nbc".toList) 0 2).2.2.1 (by decide)⟩
theorem drop_head?_getElem {text rest : List Char} {i j : Nat} {b : Char}
    (hrest : List.drop i text = rest) (hh : (List.drop j rest).head? = some b) :
    text[i + j]? = some b := by
  have h0 : (List.drop (i + j) text).head? = some b := by
    rw [← List.drop_drop, hrest]
    exact hh
  rwa [List.head?_eq_getElem?, List.getElem?_drop, Nat.add_zero] at h0

theorem bracketScan_stack_chars (i : Nat) (st : List (Char × Nat)) (l : List Char) :
    ∀ text : List Char, l = List.drop i text →
      (∀ cp ∈ st, text[cp.2]? = some cp.1) →
      ∀ cp ∈ (bracketScan i st l).2, text[cp.2]? = some cp.1 := by
  induction i, st, l using bracketScan.induct with
  | case1 i stack =>
    intro text hl hst cp hcp
    rw [bracketScan.eq_def] at hcp
    simp only [] at hcp
    exact hst cp hcp
  | case2 i stack ch rest hopen ih =>
    intro text hl hst cp hcp
    rw [bracketScan.eq_def] at hcp
    simp only [hopen, if_true] at hcp
    refine ih text (drop_eq_cons_tail hl.symm).symm ?_ cp hcp
    intro cp' hcp'
    rcases List.mem_cons.mp hcp' with rfl | hmem
    · exact drop_eq_cons_getElem hl.symm
    · exact hst cp' hmem
  | case3 i ch rest hopen hclose ih =>
    intro text hl hst cp hcp
    rw [bracketScan] at hcp
    simp only [hopen, hclose, if_true, if_false] at hcp
    exact ih text (drop_eq_cons_tail hl.symm).symm (fun cp' h => (List.not_mem_nil cp' h).elim) cp hcp
  | case4 i ch rest hopen hclose top stack' hmatch ih =>
    intro text hl hst cp hcp
    rw [bracketScan] at hcp
    simp only [hopen, hclose, hmatch, if_true, if_false] at hcp
    exact ih text (drop_eq_cons_tail hl.symm).symm
      (fun cp' h => hst cp' (List.mem_cons_of_mem _ h)) cp hcp
  | case5 i ch rest hopen hclose top stack' hmatch ih =>
    intro text hl hst cp hcp
    rw [bracketScan] at hcp
    simp only [hopen, hclose, hmatch, if_true, if_false] at hcp
    exact ih text (drop_eq_cons_tail hl.symm).symm hst cp hcp
  | case6 i stack ch rest hopen hclose ih =>
    intro text hl hst cp hcp
    rw [bracketScan.eq_def] at hcp
    simp only [hopen, hclose, if_false] at hcp
    exact ih text (drop_eq_cons_tail hl.symm).symm hst cp hcp

/-- C1 amended: every character still on the stack after the bracket scan
yields one unclosed-open issue of span length 1 located at the opener's own
offset (the text position where that opener character sits), not at the
end-of-text position. -/
theorem C1_amended_thm (text : List Char) (cp : Char × Nat)
    (h : cp ∈ (bracketScan 0 [] text).2) :
    text[cp.2]? = some cp.1 ∧
      (cp.2, 1, [cp.1], unclosedNote) ∈ check_typos text := by
  have h1 := bracketScan_stack_chars 0 [] text text (List.drop_zero text).symm
    (fun cp' h' => (List.not_mem_nil cp' h').elim) cp h
  refine ⟨h1, ?_⟩
  have h2 : (cp.2, 1, [cp.1], unclosedNote) ∈
      (bracketScan 0 [] text).2.reverse.map (fun q => (q.2, 1, [q.1], unclosedNote)) :=
    List.mem_map.mpr ⟨cp, List.mem_reverse.mpr h, rfl⟩
  unfold check_typos
  simp only [List.mem_append]
  tauto

/-- C1 amendment witness: for the one-unclosed-opener text the opener
sits at offset 0 and the unclosed-open issue is issued at offset 0. -/
theorem C1_amended_witness :
    ("（測試".toList)[(0 : Nat)]? = some '（' ∧
      ((0 : Nat), 1, ['（'], unclosedNote) ∈ check_typos ("（測試".toList) :=
  C1_amended_thm ("（測試".toList) ('（', 0) (by decide)
theorem asciiGo_sound (i sk : Nat) (l : List Char) :
    ∀ text : List Char, l = List.drop i text →
      ∀ x ∈ asciiGo i sk l,
        x.2.1 = 1 ∧ x.2.2.2 = asciiNote ∧
          ∃ a b c2, text[x.1 - 1]? = some a ∧ text[x.1]? = some b ∧
            text[x.1 + 1]? = some c2 ∧ isCJK a = true ∧ isAsciiPunct b = true ∧
            isCJK c2 = true ∧ x.2.2.1 = [b] := by
  induction i, sk, l using asciiGo.induct with
  | case1 i sk =>
    intro text hl x hx
    rw [asciiGo] at hx
    cases hx
  | case2 i sk head rest ih =>
    intro text hl x hx
    rw [asciiGo] at hx
    exact ih text (drop_eq_cons_tail hl.symm).symm x hx
  | case3 i c rest b c2 hc2 hb hcond ih =>
    intro text hl x hx
    rw [asciiGo] at hx
    simp only [hb, hc2, hcond, if_pos] at hx
    have hrest : List.drop (i + 1) text = rest := drop_eq_cons_tail hl.symm
    rcases List.mem_cons.mp hx with rfl | hx
    · refine ⟨rfl, rfl, c, b, c2, ?_, ?_, ?_, ?_, ?_, ?_, rfl⟩
      · simpa using drop_eq_cons_getElem hl.symm
      · simpa using drop_head?_getElem hrest (by rw [List.drop_zero]; exact hb)
      · simpa using drop_head?_getElem hrest hc2
      · simp only [Bool.and_eq_true] at hcond
        exact hcond.1.1
      · simp only [Bool.and_eq_true] at hcond
        exact hcond.1.2
      · simp only [Bool.and_eq_true] at hcond
        exact hcond.2
    · exact ih text hrest.symm x hx
  | case4 i c rest b c2 hc2 hb hcond ih =>
    intro text hl x hx
    rw [asciiGo] at hx
    simp only [hb, hc2, hcond, if_neg] at hx
    exact ih text (drop_eq_cons_tail hl.symm).symm x hx
  | case5 i c rest hnone =>
    intro text hl x hx
    rw [asciiGo] at hx
    rcases hh1 : rest.head? with _ | b
    · simp only [hh1] at hx
      cases hx
    · rcases hh2 : (List.drop 1 rest).head? with _ | c2
      · simp only [hh1, hh2] at hx
        cases hx
      · exact (hnone b c2 hh1 hh2).elim
/-- C3 amended: the mixed-script sub-scan is sound — every issue it emits
spans exactly one half-width ASCII punctuation character with a CJK
ideograph immediately before and after it — but the scan is leftmost
non-overlapping and a match consumes the following ideograph, so an
occurrence whose preceding ideograph was consumed by the previous match
is not flagged (in the two-comma text only the first comma is reported). -/
theorem C3_amended_thm (text : List Char) (x : Issue4) (h : x ∈ asciiGo 0 0 text) :
    x ∈ check_typos text ∧ x.2.1 = 1 ∧ x.2.2.2 = asciiNote ∧
      ∃ a b c2, text[x.1 - 1]? = some a ∧ text[x.1]? = some b ∧
        text[x.1 + 1]? = some c2 ∧ isCJK a = true ∧ isAsciiPunct b = true ∧
        isCJK c2 = true ∧ x.2.2.1 = [b] := by
  refine ⟨?_, asciiGo_sound 0 0 text text (List.drop_zero text).symm x h⟩
  unfold check_typos
  simp only [List.mem_append]
  tauto

/-- C3 amendment witness at the second claim text, first comma. -/
theorem C3_amended_witness :
    ((1 : Nat), 1, [','], asciiNote) ∈ check_typos ("你,好,嗎".toList) ∧
      ((1 : Nat), 1, [','], asciiNote).2.1 = 1 ∧
      ((1 : Nat), 1, [','], asciiNote).2.2.2 = asciiNote ∧
      ∃ a b c2, ("你,好,嗎".toList)[(0 : Nat)]? = some a ∧
        ("你,好,嗎".toList)[(1 : Nat)]? = some b ∧
        ("你,好,嗎".toList)[(2 : Nat)]? = some c2 ∧ isCJK a = true ∧
        isAsciiPunct b = true ∧ isCJK c2 = true ∧
        ((1 : Nat), 1, [','], asciiNote).2.2.1 = [b] :=
  C3_amended_thm ("你,好,嗎".toList) ((1 : Nat), 1, [','], asciiNote) (by decide)
/-- C6 counterexample: a glossary row with an empty preferred term and two
variant terms both present in the target text does produce a finding, whose
preferred field is the empty string. -/
theorem C6_counterexample :
    check_terminology_inconsistency ("甲乙".toList) [⟨[], [], "甲|乙".toList⟩] =
        [⟨[], "甲 (1), 乙 (1)".toList⟩] ∧
      (check_terminology_inconsistency ("甲乙".toList)
          [⟨[], [], "甲|乙".toList⟩]).map Finding.preferred = [[]] :=
  ⟨rfl, rfl⟩

/-- C6 amended: a glossary row is skipped only when its stripped preferred
term and its parsed variant list are both empty; a row with an empty
preferred term but two occurring variants still yields a finding, carrying
the empty preferred term. -/
theorem C6_amended_thm :
    (∀ (target : List Char) (e : GlossEntry), pyStrip e.zh_pref = [] →
        parseVariants e.zh_variants = [] → entryFinding target e = none) ∧
      entryFinding ("甲乙".toList) ⟨[], [], "甲|乙".toList⟩ =
        some ⟨[], "甲 (1), 乙 (1)".toList⟩ := by
  constructor
  · intro target e h1 h2
    unfold entryFinding
    simp [h1, h2]
  · rfl

/-- C6 amendment witness: a row with empty preferred term and empty
variants is skipped. -/
theorem C6_amended_witness :
    entryFinding ("xy".toList) ⟨[], [], []⟩ = none :=
  C6_amended_thm.1 ("xy".toList) ⟨[], [], []⟩ (by decide) (by decide)
theorem bracketDupGo_eq (i sk : Nat) (found : List (List Char × Nat)) (l : List Char) :
    bracketDupGo i sk found l = processToks found (bracketTokens i sk l) := by
  induction i, sk, found, l using bracketDupGo.induct with
  | case1 i sk found => simp only [bracketDupGo, bracketTokens, processToks]
  | case2 i sk found head rest ih =>
    simp only [bracketDupGo, bracketTokens]
    exact ih
  | case3 i found c rest d hd ds hds d1 hd1 hbeq hkey ih =>
    rw [bracketDupGo.eq_def, bracketTokens.eq_def]
    simp only [hd, if_pos hds, hd1, hbeq, hkey, if_true]
    rw [processToks]
    simp only [hkey, if_true, ih]
  | case4 i found c rest d hd ds hds d1 hd1 hbeq hkey ih =>
    rw [bracketDupGo.eq_def, bracketTokens.eq_def]
    simp only [hd, if_pos hds, hd1, hbeq, if_true]
    rw [processToks]
    simp only [hkey, if_false, Bool.false_eq_true, ih]
  | case5 i found c rest d hd ds hds d1 hd1 hbeq ih =>
    rw [bracketDupGo.eq_def, bracketTokens.eq_def]
    simp only [hd, if_pos hds, hd1, hbeq, Bool.false_eq_true, if_false, ih]
  | case6 i found c rest d hd ds hds hnone ih =>
    rw [bracketDupGo.eq_def, bracketTokens.eq_def]
    simp only [hd, if_pos hds, hnone, ih]
  | case7 i found c rest d hd ds hds ih =>
    rw [bracketDupGo.eq_def, bracketTokens.eq_def]
    simp only [hd, if_neg hds, ih]
  | case8 i found c rest hd ih =>
    rw [bracketDupGo.eq_def, bracketTokens.eq_def]
    simp only [hd, ih]

theorem supDupGo_eq (i sk : Nat) (found : List (List Char × Nat)) (l : List Char) :
    supDupGo i sk found l = processToks found (supTokens i sk l) := by
  induction i, sk, found, l using supDupGo.induct with
  | case1 i sk found => simp only [supDupGo, supTokens, processToks]
  | case2 i sk found head rest ih =>
    simp only [supDupGo, supTokens]
    exact ih
  | case3 i found c rest hcs run key hkey ih =>
    rw [supDupGo.eq_def, supTokens.eq_def]
    simp only [hcs, if_true]
    rw [processToks]
    simp only [hkey, if_true, ih]
  | case4 i found c rest hcs run key hkey ih =>
    rw [supDupGo.eq_def, supTokens.eq_def]
    simp only [hcs, if_true]
    rw [processToks]
    simp only [hkey, if_false, Bool.false_eq_true, ih]
  | case5 i found c rest hc ih =>
    rw [supDupGo.eq_def, supTokens.eq_def]
    simp only [hc, Bool.false_eq_true, if_false, ih]
theorem processToks_append (found : List (List Char × Nat)) (xs ys : List Issue3) :
    processToks found (xs ++ ys) =
      ((processToks found xs).1 ++ (processToks (processToks found xs).2 ys).1,
        (processToks (processToks found xs).2 ys).2) := by
  induction xs generalizing found with
  | nil => simp [processToks]
  | cons t ts ih =>
    simp only [List.cons_append, processToks]
    cases h : keyMem found t.2.2 with
    | true => simp [h, List.append_eq, List.cons_append, ih]
    | false => simp [h, List.append_eq, ih]

theorem processToks_eq_specGo (ts : List Issue3) (found : List (List Char × Nat))
    (prev : List Issue3)
    (hagree : ∀ k, keyMem found k = prev.any (fun p => p.2.2 == k)) :
    (processToks found ts).1 = specGo prev ts := by
  induction ts generalizing found prev with
  | nil => simp [processToks, specGo]
  | cons t ts ih =>
    have hg := hagree t.2.2
    rw [processToks, specGo]
    cases h : keyMem found t.2.2 with
    | true =>
      rw [h] at hg
      simp only [h, ← hg, if_true]
      refine congrArg (t :: ·) (ih found (prev ++ [t]) ?_)
      intro k
      rw [List.any_append, hagree k]
      cases htk : (t.2.2 == k) with
      | true =>
        have hk : t.2.2 = k := eq_of_beq htk
        subst hk
        simp [← hg]
      | false => simp [htk]
    | false =>
      rw [h] at hg
      simp only [h, ← hg, Bool.false_eq_true, if_false]
      refine ih ((t.2.2, t.1) :: found) (prev ++ [t]) ?_
      intro k
      have hkk := hagree k
      simp only [keyMem, List.any_cons, List.any_append, List.any_nil] at hkk ⊢
      rw [hkk]
      cases hp : (prev.any fun p => p.2.2 == k) <;> cases htk : (t.2.2 == k) <;> simp

/-- C2: duplicate-footnote reporting is exactly later-occurrence selection:
over the token sequence of the bracket pass followed by the superscript
pass, an issue is emitted precisely for each token whose key already
occurred at an earlier token, so the first occurrence of a number is never
reported and detection is global over the whole token sequence; in the
claim's example exactly the second occurrence of the number one, at offset
17, is reported. -/
theorem C2_thm :
    (∀ text : List Char, check_duplicate_footnotes text =
        specGo [] (bracketTokens 0 0 text ++ supTokens 0 0 text)) ∧
      check_duplicate_footnotes ("foo(1) bar(2) baz(1)".toList) = [(17, 3, ['1'])] := by
  constructor
  · intro text
    have hC := processToks_eq_specGo (bracketTokens 0 0 text ++ supTokens 0 0 text) [] []
      (fun k => rfl)
    have hAp := processToks_append [] (bracketTokens 0 0 text) (supTokens 0 0 text)
    unfold check_duplicate_footnotes
    simp only [bracketDupGo_eq, supDupGo_eq]
    rw [← hC, hAp]
  · rfl

/-- C2 witness at a short concrete text with one bracket token and one
superscript token sharing a key. -/
theorem C2_witness :
    check_duplicate_footnotes ("(7)⁷".toList) =
      specGo [] (bracketTokens 0 0 ("(7)⁷".toList) ++ supTokens 0 0 ("(7)⁷".toList)) :=
  C2_thm.1 ("(7)⁷".toList)
